import Mathlib

/-!
Verification development for the ESEProject capture-and-recognition
pipeline.  The Python sources (`ocr_reader.py`, `stream_control.py`,
`video_stream.py`, `detector.py`) are shallowly embedded: pure string
processing becomes Lean functions on `String`/`List Char`, the process
supervisor becomes an explicit state-and-action-trace semantics, and the
orchestration loop becomes a recursive function over a list of loop events.
-/

/-! ## Configuration constants (ocr_reader.py, lines 33-37) -/

def OCR_EVERY : Nat := 5

def HISTORY : Nat := 15

def REQUIRED : Nat := 4

def PLATE_MIN : Nat := 5

def PLATE_MAX : Nat := 8

/-! ## Normalization (ocr_reader.py, `normalize_plate`, lines 100-111)

The Python code is
`s = s.upper().strip().replace(" ", ""); s = s.replace("O","0").replace("|","1");`
`return "".join(ch for ch in s if ch in allowed)`.
Character-level embedding (ASCII case mapping): `upper` is `Char.toUpper`
mapped over the characters, `strip` drops leading/trailing whitespace,
`replace(" ", "")` deletes every space, the two single-character `replace`
calls are maps, and the final comprehension is a filter by the allowlist. -/

def allowedStr : String := "ABCDEFGHIJKLMNOPQRSTUVWXYZ0123456789"

def allowedChar (c : Char) : Bool := c ∈ allowedStr.toList

/-- Python `str.strip()`: drop leading and trailing whitespace. -/
def pyStrip (l : List Char) : List Char :=
  ((l.dropWhile Char.isWhitespace).reverse.dropWhile Char.isWhitespace).reverse

/-- Python `str.replace("O", "0")` acting on one character. -/
def substO (c : Char) : Char := if c = 'O' then '0' else c

/-- Python `str.replace("|", "1")` acting on one character. -/
def substBar (c : Char) : Char := if c = '|' then '1' else c

/-- Substitute-then-filter core shared by the code path and the spec path. -/
def normCore (l : List Char) : List Char :=
  ((l.map substO).map substBar).filter allowedChar

def normalize_plate (s : String) : String :=
  let l0 := s.toList.map Char.toUpper
  let l1 := pyStrip l0
  let l2 := l1.filter (fun c => c ≠ ' ')
  String.mk (normCore l2)

/-- The spec's description of normalization: uppercase, remove whitespace,
substitute "O"→"0" and "|"→"1" leaving other characters unchanged, and drop
every character outside A-Z / 0-9. -/
def normalizeSpec (s : String) : String :=
  String.mk (normCore ((s.toList.map Char.toUpper).filter (fun c => !c.isWhitespace)))

/-! ## OCR candidate selection (ocr_reader.py, `ocr_best`, lines 114-130)

The OCR engine itself is an external capability; the selection step is
embedded as a function of the two raw texts it returns:
`return norm_a if len(norm_a) >= len(norm_b) else norm_b`. -/

def ocr_best_select (txt_a txt_b : String) : String :=
  let norm_a := normalize_plate txt_a
  let norm_b := normalize_plate txt_b
  if norm_a.length ≥ norm_b.length then norm_a else norm_b

/-! ## Normalization lemmas -/

lemma ws_killed (c : Char) (h : Char.isWhitespace c = true) :
    allowedChar (substBar (substO c)) = false := by
  simp only [Char.isWhitespace, Bool.or_eq_true, decide_eq_true_eq] at h
  rcases h with ((h | h) | h) | h <;> subst h <;> decide

lemma normCore_append (l₁ l₂ : List Char) :
    normCore (l₁ ++ l₂) = normCore l₁ ++ normCore l₂ := by
  simp [normCore, List.map_append, List.filter_append]

lemma normCore_reverse (l : List Char) :
    normCore l.reverse = (normCore l).reverse := by
  induction l with
  | nil => rfl
  | cons a l ih =>
      rw [List.reverse_cons, normCore_append, ih]
      by_cases h : allowedChar (substBar (substO a)) = true
      · simp [normCore, h, List.filter_cons]
      · simp only [Bool.not_eq_true] at h
        simp [normCore, h, List.filter_cons]

lemma normCore_filter (p : Char → Bool)
    (hp : ∀ c, p c = false → allowedChar (substBar (substO c)) = false)
    (l : List Char) : normCore (l.filter p) = normCore l := by
  induction l with
  | nil => rfl
  | cons a l ih =>
      by_cases h : p a = true
      · simp only [List.filter_cons, h, if_pos]
        simp [normCore, List.filter_cons] at ih ⊢
        rw [ih]
      · simp only [Bool.not_eq_true] at h
        have hk := hp a h
        simp only [List.filter_cons, h]
        simp only [Bool.false_eq_true, if_false]
        rw [ih]
        simp [normCore, List.filter_cons, hk]

lemma normCore_dropWhile (p : Char → Bool)
    (hp : ∀ c, p c = true → allowedChar (substBar (substO c)) = false)
    (l : List Char) : normCore (l.dropWhile p) = normCore l := by
  induction l with
  | nil => rfl
  | cons a l ih =>
      by_cases h : p a = true
      · rw [List.dropWhile_cons_of_pos h, ih]
        simp [normCore, List.filter_cons, hp a h]
      · simp only [Bool.not_eq_true] at h
        rw [List.dropWhile_cons_of_neg (by simp [h])]

lemma normCore_pyStrip (l : List Char) : normCore (pyStrip l) = normCore l := by
  unfold pyStrip
  rw [normCore_reverse, normCore_dropWhile Char.isWhitespace ws_killed,
      normCore_reverse, List.reverse_reverse,
      normCore_dropWhile Char.isWhitespace ws_killed]

lemma normalize_plate_eq_spec (s : String) : normalize_plate s = normalizeSpec s := by
  unfold normalize_plate normalizeSpec
  have h₁ : normCore ((pyStrip (s.toList.map Char.toUpper)).filter (fun c => decide (c ≠ ' ')))
      = normCore (s.toList.map Char.toUpper) := by
    rw [normCore_filter (fun c => decide (c ≠ ' '))
        (by intro c hc
            simp only [decide_eq_false_iff_not, not_not] at hc
            subst hc; decide)]
    exact normCore_pyStrip _
  have h₂ : normCore ((s.toList.map Char.toUpper).filter (fun c => !c.isWhitespace))
      = normCore (s.toList.map Char.toUpper) := by
    exact normCore_filter (fun c => !c.isWhitespace)
      (by intro c hc
          simp only [Bool.not_eq_false'] at hc
          exact ws_killed c hc) _
  simp only [h₁, h₂]

/-- C6: Normalization is a pure deterministic string function: for every input
string it uppercases, removes whitespace, substitutes "O"→"0" and "|"→"1",
leaves other characters unchanged, and drops every character outside A-Z and
0-9; in particular normalize("o1|b") = "011B". -/
theorem C6_normalize_plate_spec (s : String) :
    normalize_plate s = normalizeSpec s ∧ normalize_plate "o1|b" = "011B" :=
  ⟨normalize_plate_eq_spec s, by decide⟩

/-- C7: For every pair of OCR results from the two binarized variants of one
frame, the selection returns the longer normalized string: if variant one's
normalized string is strictly longer it is returned, and if variant two's is
strictly longer then variant two's string is returned. -/
theorem C7_ocr_best_longer (txt_a txt_b : String) :
    ((normalize_plate txt_b).length < (normalize_plate txt_a).length →
        ocr_best_select txt_a txt_b = normalize_plate txt_a) ∧
    ((normalize_plate txt_a).length < (normalize_plate txt_b).length →
        ocr_best_select txt_a txt_b = normalize_plate txt_b) := by
  constructor
  · intro h
    simp [ocr_best_select, Nat.le_of_lt h]
  · intro h
    have : ¬ (normalize_plate txt_a).length ≥ (normalize_plate txt_b).length :=
      Nat.not_le_of_lt h
    simp [ocr_best_select, this]

/-- Witness for C7 at concrete inputs: "ab 12" normalizes to "AB12" (length 4)
and "x" to "X" (length 1), so the first branch fires and returns "AB12". -/
theorem C7_witness :
    ocr_best_select "ab 12" "x" = normalize_plate "ab 12" :=
  (C7_ocr_best_longer "ab 12" "x").1 (by decide)

/-! ## Temporal consensus engine (ocr_reader.py, `main`, lines 174, 200-211)

`hist = deque(maxlen=HISTORY)` with
`if PLATE_MIN <= len(plate) <= PLATE_MAX: hist.append(plate)` and
`best, cnt = Counter(hist).most_common(1)[0]; if cnt >= REQUIRED: stable = best`
(the vote only runs when `hist` is nonempty). -/

/-- `deque.append` on a deque created with `maxlen`: when full, the oldest
(leftmost) entry is discarded. -/
def dequeAppend (maxlen : Nat) (d : List String) (x : String) : List String :=
  if d.length < maxlen then d ++ [x] else d.tail ++ [x]

/-- The inline acceptance-and-append step of the loop (the spec's `offer`). -/
def offer (hist : List String) (plate : String) : List String :=
  if PLATE_MIN ≤ plate.length ∧ plate.length ≤ PLATE_MAX then
    dequeAppend HISTORY hist plate
  else hist

/-- One step of `Counter(hist).most_common(1)[0]`: scan the window in order,
keeping the first-encountered element of maximal count (Python `Counter`
orders equal counts by first encounter). -/
def mcStep (hist : List String) (best : Option (String × Nat)) (a : String) :
    Option (String × Nat) :=
  match best with
  | none => some (a, hist.count a)
  | some (b, c) => if c < hist.count a then some (a, hist.count a) else some (b, c)

def mostCommon (hist : List String) : Option (String × Nat) :=
  hist.foldl (mcStep hist) none

/-- The stable-result computation (the spec's `stable()`): `Absent` is `none`. -/
def stableResult (hist : List String) : Option String :=
  match mostCommon hist with
  | none => none
  | some (best, cnt) => if REQUIRED ≤ cnt then some best else none

/-! ### Lemmas about `mostCommon` -/

lemma mcFold_inv (hist : List String) :
    ∀ (l : List String) (acc : Option (String × Nat)),
      (∀ a ∈ l, a ∈ hist) →
      (∀ b c, acc = some (b, c) → c = hist.count b ∧ b ∈ hist) →
      ∀ b c, l.foldl (mcStep hist) acc = some (b, c) → c = hist.count b ∧ b ∈ hist := by
  intro l
  induction l with
  | nil => intro acc _ hacc b c h; exact hacc b c h
  | cons x t ih =>
      intro acc hl hacc b c h
      refine ih (mcStep hist acc x) (fun a ha => hl a (List.mem_cons_of_mem _ ha)) ?_ b c h
      intro b' c' h'
      have hx : x ∈ hist := hl x (List.mem_cons_self x t)
      cases acc with
      | none =>
          simp only [mcStep, Option.some.injEq, Prod.mk.injEq] at h'
          obtain ⟨hb, hc⟩ := h'
          subst hb; subst hc
          exact ⟨rfl, hx⟩
      | some p =>
          obtain ⟨b0, c0⟩ := p
          simp only [mcStep] at h'
          by_cases hlt : c0 < hist.count x
          · rw [if_pos hlt] at h'
            simp only [Option.some.injEq, Prod.mk.injEq] at h'
            obtain ⟨hb, hc⟩ := h'
            subst hb; subst hc
            exact ⟨rfl, hx⟩
          · rw [if_neg hlt] at h'
            simp only [Option.some.injEq, Prod.mk.injEq] at h'
            obtain ⟨hb, hc⟩ := h'
            subst hb; subst hc
            exact hacc b0 c0 rfl

lemma mcFold_mono (hist : List String) :
    ∀ (l : List String) (b : String) (c : Nat),
      ∃ b' c', l.foldl (mcStep hist) (some (b, c)) = some (b', c') ∧ c ≤ c' := by
  intro l
  induction l with
  | nil => intro b c; exact ⟨b, c, rfl, Nat.le_refl c⟩
  | cons x t ih =>
      intro b c
      by_cases hlt : c < hist.count x
      · obtain ⟨b', c', hfold, hle⟩ := ih x (hist.count x)
        refine ⟨b', c', ?_, Nat.le_trans (Nat.le_of_lt hlt) hle⟩
        simpa [mcStep, hlt] using hfold
      · obtain ⟨b', c', hfold, hle⟩ := ih b c
        refine ⟨b', c', ?_, hle⟩
        simpa [mcStep, hlt] using hfold

lemma mcFold_max (hist : List String) :
    ∀ (l : List String) (acc : Option (String × Nat)) (a : String), a ∈ l →
      ∃ b' c', l.foldl (mcStep hist) acc = some (b', c') ∧ hist.count a ≤ c' := by
  intro l
  induction l with
  | nil => intro acc a ha; exact absurd ha (List.not_mem_nil a)
  | cons x t ih =>
      intro acc a ha
      have hstep : ∃ b1 c1, mcStep hist acc x = some (b1, c1) ∧ hist.count x ≤ c1 := by
        cases acc with
        | none => exact ⟨x, hist.count x, rfl, Nat.le_refl _⟩
        | some p =>
            obtain ⟨b0, c0⟩ := p
            by_cases hlt : c0 < hist.count x
            · exact ⟨x, hist.count x, by simp [mcStep, hlt], Nat.le_refl _⟩
            · exact ⟨b0, c0, by simp [mcStep, hlt], Nat.le_of_not_lt hlt⟩
      obtain ⟨b1, c1, hs, hc1⟩ := hstep
      rcases List.mem_cons.mp ha with rfl | hat
      · obtain ⟨b', c', hfold, hle⟩ := mcFold_mono hist t b1 c1
        exact ⟨b', c', by rw [List.foldl_cons, hs, hfold], Nat.le_trans hc1 hle⟩
      · obtain ⟨b', c', hfold, hle⟩ := ih (mcStep hist acc x) a hat
        exact ⟨b', c', by rw [List.foldl_cons, hfold], hle⟩

lemma mostCommon_spec (hist : List String) (b : String) (c : Nat)
    (h : mostCommon hist = some (b, c)) :
    c = hist.count b ∧ b ∈ hist ∧ ∀ a ∈ hist, hist.count a ≤ c := by
  obtain ⟨h1, h2⟩ := mcFold_inv hist hist none (fun a ha => ha) (by intro b c h; cases h) b c h
  refine ⟨h1, h2, ?_⟩
  intro a ha
  obtain ⟨b', c', hfold, hle⟩ := mcFold_max hist hist none a ha
  rw [mostCommon] at h
  rw [h] at hfold
  simp only [Option.some.injEq, Prod.mk.injEq] at hfold
  obtain ⟨hb, hc⟩ := hfold
  subst hb; subst hc
  exact hle

lemma stableResult_spec (hist : List String) (v : String)
    (h : stableResult hist = some v) :
    REQUIRED ≤ hist.count v ∧ v ∈ hist ∧ ∀ a ∈ hist, hist.count a ≤ hist.count v := by
  unfold stableResult at h
  split at h
  · cases h
  · rename_i best cnt hm
    by_cases hr : REQUIRED ≤ cnt
    · rw [if_pos hr] at h
      injection h with hbv
      subst hbv
      obtain ⟨h1, h2, h3⟩ := mostCommon_spec hist best cnt hm
      rw [← h1]
      exact ⟨hr, h2, h3⟩
    · rw [if_neg hr] at h; cases h

/-- C1: For every window contents, the consensus stable() computation returns
a value only if the most frequent sample's count in the window is ≥ REQUIRED,
and otherwise returns Absent; with HISTORY=15 and REQUIRED=4, the window
["AB12CD","AB12CD","AB12CD","XY99ZZ"] yields Absent (max count 3 < 4). -/
theorem C1_stable_requires_threshold (hist : List String) (v : String) :
    (stableResult hist = some v →
        REQUIRED ≤ hist.count v ∧ ∀ a ∈ hist, hist.count a ≤ hist.count v) ∧
    stableResult ["AB12CD", "AB12CD", "AB12CD", "XY99ZZ"] = none := by
  constructor
  · intro h
    obtain ⟨h1, _, h3⟩ := stableResult_spec hist v h
    exact ⟨h1, h3⟩
  · decide

/-- Witness for C1: a window holding four copies of "AB12C" makes `stable()`
return it, and the theorem then yields REQUIRED ≤ its count. -/
theorem C1_witness :
    REQUIRED ≤ List.count "AB12C" ["AB12C", "AB12C", "AB12C", "AB12C"] :=
  ((C1_stable_requires_threshold ["AB12C", "AB12C", "AB12C", "AB12C"] "AB12C").1
    (by decide)).1

/-- C2: For every candidate string, `offer` appends the candidate to the
bounded window if and only if its length lies within [PLATE_MIN, PLATE_MAX];
a candidate of length 4 is rejected (PLATE_MIN=5), one of length 6 is
accepted (PLATE_MAX=8). -/
theorem C2_offer_length_filter (hist : List String) (plate : String) :
    (PLATE_MIN ≤ plate.length ∧ plate.length ≤ PLATE_MAX →
        offer hist plate = dequeAppend HISTORY hist plate ∧
        (offer hist plate).getLast? = some plate) ∧
    (¬ (PLATE_MIN ≤ plate.length ∧ plate.length ≤ PLATE_MAX) →
        offer hist plate = hist) ∧
    (plate.length = 4 → offer hist plate = hist) ∧
    (plate.length = 6 → offer hist plate = dequeAppend HISTORY hist plate) := by
  refine ⟨?_, ?_, ?_, ?_⟩
  · intro h
    rw [offer, if_pos h]
    refine ⟨rfl, ?_⟩
    unfold dequeAppend
    by_cases hl : hist.length < HISTORY
    · rw [if_pos hl]; exact List.getLast?_concat _
    · rw [if_neg hl]; exact List.getLast?_concat _
  · intro h; rw [offer, if_neg h]
  · intro h4
    rw [offer, if_neg (by rw [h4]; decide)]
  · intro h6
    rw [offer, if_pos (by rw [h6]; exact ⟨by decide, by decide⟩)]

/-- Witness for C2: the length-6 candidate "AB12CD" is appended to the empty
window. -/
theorem C2_witness :
    offer [] "AB12CD" = dequeAppend HISTORY [] "AB12CD" ∧
    (offer [] "AB12CD").getLast? = some "AB12CD" :=
  (C2_offer_length_filter [] "AB12CD").1 (by decide)

lemma offer_length_le (h : List String) (x : String) (hh : h.length ≤ HISTORY) :
    (offer h x).length ≤ HISTORY := by
  have hH : HISTORY = 15 := rfl
  unfold offer dequeAppend
  by_cases hacc : PLATE_MIN ≤ x.length ∧ x.length ≤ PLATE_MAX
  · rw [if_pos hacc]
    by_cases hl : h.length < HISTORY
    · rw [if_pos hl]
      simp only [List.length_append, List.length_singleton]
      omega
    · rw [if_neg hl]
      simp only [List.length_append, List.length_singleton, List.length_tail]
      omega
  · rw [if_neg hacc]; exact hh

lemma foldl_offer_length (ops : List String) :
    ∀ h : List String, h.length ≤ HISTORY →
      (List.foldl offer h ops).length ≤ HISTORY := by
  induction ops with
  | nil => intro h hh; exact hh
  | cons x t ih => intro h hh; exact ih (offer h x) (offer_length_le h x hh)

/-- C5: The consensus window is a bounded FIFO buffer: after every sequence of
offers the window holds at most HISTORY samples, and an accepted sample
offered to a full window evicts exactly the oldest sample while preserving the
relative order of the rest. -/
theorem C5_window_bounded_fifo (ops : List String) (hist : List String) (x : String) :
    (List.foldl offer [] ops).length ≤ HISTORY ∧
    (hist.length = HISTORY → PLATE_MIN ≤ x.length → x.length ≤ PLATE_MAX →
        offer hist x = hist.tail ++ [x]) := by
  constructor
  · exact foldl_offer_length ops [] (by decide)
  · intro hfull h1 h2
    unfold offer dequeAppend
    rw [if_pos ⟨h1, h2⟩, if_neg (by rw [hfull]; exact Nat.lt_irrefl _)]

/-- Witness for C5: offering the accepted sample "XY99Z" to a full window of
15 copies of "AB12C" drops the head and appends at the back. -/
theorem C5_witness :
    offer (List.replicate 15 "AB12C") "XY99Z"
      = (List.replicate 15 "AB12C").tail ++ ["XY99Z"] :=
  (C5_window_bounded_fifo [] (List.replicate 15 "AB12C") "XY99Z").2
    (by decide) (by decide) (by decide)

lemma offer_mem_bounds (h : List String) (x : String)
    (hh : ∀ s ∈ h, PLATE_MIN ≤ s.length ∧ s.length ≤ PLATE_MAX) :
    ∀ s ∈ offer h x, PLATE_MIN ≤ s.length ∧ s.length ≤ PLATE_MAX := by
  intro s hs
  unfold offer at hs
  by_cases hacc : PLATE_MIN ≤ x.length ∧ x.length ≤ PLATE_MAX
  · rw [if_pos hacc] at hs
    unfold dequeAppend at hs
    by_cases hl : h.length < HISTORY
    · rw [if_pos hl] at hs
      rcases List.mem_append.mp hs with hs | hs
      · exact hh s hs
      · rw [List.mem_singleton.mp hs]; exact hacc
    · rw [if_neg hl] at hs
      rcases List.mem_append.mp hs with hs | hs
      · exact hh s (List.mem_of_mem_tail hs)
      · rw [List.mem_singleton.mp hs]; exact hacc
  · rw [if_neg hacc] at hs
    exact hh s hs

lemma foldl_offer_bounds (ops : List String) :
    ∀ h : List String, (∀ s ∈ h, PLATE_MIN ≤ s.length ∧ s.length ≤ PLATE_MAX) →
      ∀ s ∈ List.foldl offer h ops, PLATE_MIN ≤ s.length ∧ s.length ≤ PLATE_MAX := by
  induction ops with
  | nil => intro h hh; exact hh
  | cons x t ih => intro h hh; exact ih (offer h x) (offer_mem_bounds h x hh)

/-- C10: Every sample ever held in the consensus window has length within
[PLATE_MIN, PLATE_MAX] (never empty), so whenever stable() returns a value,
that value's length lies within [PLATE_MIN, PLATE_MAX]. -/
theorem C10_window_samples_bounded (ops : List String) (v : String) :
    (∀ s ∈ List.foldl offer [] ops, PLATE_MIN ≤ s.length ∧ s.length ≤ PLATE_MAX) ∧
    (stableResult (List.foldl offer [] ops) = some v →
        PLATE_MIN ≤ v.length ∧ v.length ≤ PLATE_MAX ∧ v ≠ "") := by
  have hb := foldl_offer_bounds ops []
    (by intro s hs; exact absurd hs (List.not_mem_nil s))
  refine ⟨hb, ?_⟩
  intro h
  obtain ⟨_, hmem, _⟩ := stableResult_spec _ v h
  obtain ⟨h1, h2⟩ := hb v hmem
  refine ⟨h1, h2, ?_⟩
  intro hv
  rw [hv] at h1
  exact absurd h1 (by decide)

/-- Witness for C10: after offering four copies of "AB12CD" and the rejected
"XY", the stable result is "AB12CD" and its length is in bounds. -/
theorem C10_witness :
    (PLATE_MIN ≤ ("AB12CD" : String).length ∧ ("AB12CD" : String).length ≤ PLATE_MAX) ∧
    (PLATE_MIN ≤ ("AB12CD" : String).length ∧ ("AB12CD" : String).length ≤ PLATE_MAX ∧
      ("AB12CD" : String) ≠ "") :=
  ⟨(C10_window_samples_bounded ["AB12CD", "AB12CD", "AB12CD", "AB12CD", "XY"] "AB12CD").1
      "AB12CD" (by decide),
   (C10_window_samples_bounded ["AB12CD", "AB12CD", "AB12CD", "AB12CD", "XY"] "AB12CD").2
      (by decide)⟩

/-! ## Stream supervisor (stream_control.py)

State-and-action-trace embedding.  The state records the lock (pid) file
content and the set of live process ids; each call returns the list of
observable OS actions it performs together with the successor state.
`stop_stream` is embedded in an error monad so that exception behavior
(`ProcessLookupError` from `os.kill`, `FileNotFoundError` from `os.remove`)
is explicit: only those two exception classes are caught, anything else
would propagate as `Except.error`. -/

structure SysState where
  pidFileContent : Option Nat
  running : List Nat
  nextPid : Nat
deriving DecidableEq

inductive Sig where
  | sigterm
  | sigkill
deriving DecidableEq

inductive PAct where
  | spawn (pid : Nat)
  | writePidFile (pid : Nat)
  | sigPid (pid : Nat) (s : Sig)
  | sigGroup (pgid : Nat) (s : Sig)
  | sleepMs (ms : Nat)
  | removePidFile
  | printMsg (m : String)
deriving DecidableEq

inductive PyErr where
  | processLookup
  | fileNotFound
deriving DecidableEq

/-- `os.kill(pid, sig)`: raises `ProcessLookupError` when the process does
not exist. -/
def osKill (running : List Nat) (pid : Nat) : Except PyErr Unit :=
  if pid ∈ running then Except.ok () else Except.error PyErr.processLookup

/-- `os.remove(pid_file)`: raises `FileNotFoundError` when the file is
missing. -/
def osRemoveFile (present : Bool) : Except PyErr Unit :=
  if present then Except.ok () else Except.error PyErr.fileNotFound

def alreadyRunningMsg : String := "Stream already running (pid file exists)."

def noStreamMsg : String := "No stream running (pid file missing)."

def stoppedMsg : String := "Stopped stream."

def procNotFoundMsg : String := "Process not found; cleaning pid file."

/-- stream_control.py `start_stream` (lines 27-59): if the pid file exists,
print and return; otherwise launch the child, write its pid, print. -/
def start_stream (s : SysState) : List PAct × SysState :=
  if s.pidFileContent.isSome then
    ([PAct.printMsg alreadyRunningMsg], s)
  else
    let pid := s.nextPid
    ([PAct.spawn pid, PAct.writePidFile pid, PAct.printMsg "Started stream"],
     { pidFileContent := some pid, running := pid :: s.running, nextPid := s.nextPid + 1 })

/-- stream_control.py `stop_stream` (lines 62-86): if the pid file is missing,
print and return; otherwise read the pid, `os.kill(pid, SIGTERM)` with
`ProcessLookupError` downgraded to a warning, then `os.remove(pid_file)` with
`FileNotFoundError` passed over. -/
def stop_stream (s : SysState) : Except PyErr (List PAct × SysState) :=
  match s.pidFileContent with
  | none => Except.ok ([PAct.printMsg noStreamMsg], s)
  | some pid =>
    let removeStep : List PAct → Except PyErr (List PAct × SysState) := fun acts1 =>
      match osRemoveFile s.pidFileContent.isSome with
      | Except.ok _ =>
          Except.ok (acts1 ++ [PAct.removePidFile], { s with pidFileContent := none })
      | Except.error PyErr.fileNotFound => Except.ok (acts1, s)
      | Except.error e => Except.error e
    match osKill s.running pid with
    | Except.ok _ => removeStep [PAct.sigPid pid Sig.sigterm, PAct.printMsg stoppedMsg]
    | Except.error PyErr.processLookup => removeStep [PAct.printMsg procNotFoundMsg]
    | Except.error e => Except.error e

lemma stop_stream_alive (s : SysState) (pid : Nat)
    (hf : s.pidFileContent = some pid) (hr : pid ∈ s.running) :
    stop_stream s = Except.ok
      ([PAct.sigPid pid Sig.sigterm, PAct.printMsg stoppedMsg, PAct.removePidFile],
       { s with pidFileContent := none }) := by
  unfold stop_stream
  rw [hf]
  simp only [osKill, osRemoveFile, hf, if_pos hr, Option.isSome_some, if_pos]
  rfl

lemma stop_stream_dead (s : SysState) (pid : Nat)
    (hf : s.pidFileContent = some pid) (hr : pid ∉ s.running) :
    stop_stream s = Except.ok
      ([PAct.printMsg procNotFoundMsg, PAct.removePidFile],
       { s with pidFileContent := none }) := by
  unfold stop_stream
  rw [hf]
  simp only [osKill, osRemoveFile, hf, if_neg hr, Option.isSome_some, if_pos]
  rfl

/-- C3 counterexample: with lock file recording pid 42 and process 42 alive,
`stop_stream` performs exactly a single-process SIGTERM, a print, and the
lock-file removal: it sends no signal to a process group, never escalates to
SIGKILL, and performs no 300 ms grace wait. -/
theorem C3_counterexample :
    stop_stream ⟨some 42, [42], 43⟩ = Except.ok
      ([PAct.sigPid 42 Sig.sigterm, PAct.printMsg stoppedMsg, PAct.removePidFile],
       ⟨none, [42], 43⟩) ∧
    PAct.sigGroup 42 Sig.sigterm ∉
      [PAct.sigPid 42 Sig.sigterm, PAct.printMsg stoppedMsg, PAct.removePidFile] ∧
    PAct.sigPid 42 Sig.sigkill ∉
      [PAct.sigPid 42 Sig.sigterm, PAct.printMsg stoppedMsg, PAct.removePidFile] ∧
    PAct.sigGroup 42 Sig.sigkill ∉
      [PAct.sigPid 42 Sig.sigterm, PAct.printMsg stoppedMsg, PAct.removePidFile] ∧
    PAct.sleepMs 300 ∉
      [PAct.sigPid 42 Sig.sigterm, PAct.printMsg stoppedMsg, PAct.removePidFile] := by
  refine ⟨stop_stream_alive ⟨some 42, [42], 43⟩ 42 rfl (by decide), ?_, ?_, ?_, ?_⟩ <;> decide

/-- C3 amended: when the lock file exists and the recorded process is alive,
stop reads the recorded pid and sends SIGTERM to that single process only
(not to its process group), then removes the lock file; it performs no grace
wait and no SIGKILL escalation. -/
theorem C3_amended_single_sigterm (s : SysState) (pid : Nat)
    (hf : s.pidFileContent = some pid) (hr : pid ∈ s.running) :
    stop_stream s = Except.ok
      ([PAct.sigPid pid Sig.sigterm, PAct.printMsg stoppedMsg, PAct.removePidFile],
       { s with pidFileContent := none }) :=
  stop_stream_alive s pid hf hr

/-- Witness for the amended C3 at a concrete state. -/
theorem C3_amended_witness :
    stop_stream ⟨some 7, [7, 9], 10⟩ = Except.ok
      ([PAct.sigPid 7 Sig.sigterm, PAct.printMsg stoppedMsg, PAct.removePidFile],
       ⟨none, [7, 9], 10⟩) :=
  C3_amended_single_sigterm ⟨some 7, [7, 9], 10⟩ 7 rfl (by decide)

/-- C4: `start` is idempotent with respect to the lock file: with the lock
file present, `start` spawns nothing, writes nothing, and leaves the state
unchanged; after a first successful `start`, a second `start` reports the
already-running condition and is a no-op. -/
theorem C4_start_idempotent (s : SysState) (pid : Nat) :
    (s.pidFileContent = some pid →
        start_stream s = ([PAct.printMsg alreadyRunningMsg], s)) ∧
    (s.pidFileContent = none →
        ((start_stream s).2.pidFileContent = some s.nextPid ∧
         start_stream (start_stream s).2
           = ([PAct.printMsg alreadyRunningMsg], (start_stream s).2))) := by
  constructor
  · intro hf
    unfold start_stream
    rw [hf]
    rfl
  · intro hf
    unfold start_stream
    rw [hf]
    exact ⟨rfl, rfl⟩

/-- Witness for C4: starting twice from a fresh state; the second call is a
pure no-op reporting the already-running condition. -/
theorem C4_witness :
    (start_stream (start_stream ⟨none, [], 100⟩).2).2
      = (start_stream ⟨none, [], 100⟩).2 ∧
    (start_stream (start_stream ⟨none, [], 100⟩).2).1
      = [PAct.printMsg alreadyRunningMsg] := by
  have h := (C4_start_idempotent ⟨none, [], 100⟩ 0).2 rfl
  exact ⟨by rw [h.2], by rw [h.2]⟩

/-- C8: when the lock file exists but the recorded process no longer exists,
`stop_stream` does not raise: the `ProcessLookupError` is downgraded to a
warning message and the lock file is still removed, so afterwards no lock
file remains. -/
theorem C8_stop_stale_lock_cleanup (s : SysState) (pid : Nat)
    (hf : s.pidFileContent = some pid) (hr : pid ∉ s.running) :
    stop_stream s = Except.ok
      ([PAct.printMsg procNotFoundMsg, PAct.removePidFile],
       { s with pidFileContent := none }) ∧
    ∃ acts s', stop_stream s = Except.ok (acts, s') ∧ s'.pidFileContent = none :=
  ⟨stop_stream_dead s pid hf hr,
   [PAct.printMsg procNotFoundMsg, PAct.removePidFile], { s with pidFileContent := none },
   stop_stream_dead s pid hf hr, rfl⟩

/-- Witness for C8 at a concrete state: lock file records pid 5, process 5 is
gone. -/
theorem C8_witness :
    stop_stream ⟨some 5, [], 6⟩ = Except.ok
      ([PAct.printMsg procNotFoundMsg, PAct.removePidFile], ⟨none, [], 6⟩) :=
  (C8_stop_stale_lock_cleanup ⟨some 5, [], 6⟩ 5 rfl (by decide)).1

/-! ## Orchestration loop (ocr_reader.py `main` lines 168-227, detector.py
`main` lines 119-146)

Both mains share the shape: `start_stream()`; open capture; if not opened,
print an error, `stop_stream()`, return; otherwise run the capture loop
inside `try:` with `finally: cap.release(); cv2.destroyAllWindows();
stop_stream()`.  The loop is embedded as a recursion over a list of loop
events: a failed read (which sleeps and continues), a keypress (113 = 'q'
breaks, 115 = 's' saves in ocr_reader), or an unhandled exception raised by
the iteration's body (which leaves the loop; the `finally` block still runs
before the exception terminates the process).  The run result is `some trace`
when the program exits and `none` while the (endless) loop is still
consuming events. -/

inductive LEvent where
  | readFail
  | key (k : Nat)
  | err
deriving DecidableEq

inductive MAct where
  | startStream
  | stopStream
  | capRelease
  | destroyWindows
  | saveFrame
deriving DecidableEq

/-- The `while True` body of ocr_reader.py `main`: returns the actions the
surviving iterations performed and whether the loop was left (by `break` or
by an unhandled exception). -/
def loopRun : List LEvent → List MAct × Bool
  | [] => ([], false)
  | LEvent.readFail :: rest => loopRun rest
  | LEvent.err :: _ => ([], true)
  | LEvent.key k :: rest =>
      if k = 113 then ([], true)
      else
        let r := loopRun rest
        (if k = 115 then MAct.saveFrame :: r.1 else r.1, r.2)

/-- ocr_reader.py `main`: start, open capture, loop under try/finally. -/
def mainRun (capOpens : Bool) (events : List LEvent) : Option (List MAct) :=
  if capOpens then
    if (loopRun events).2 then
      some (MAct.startStream :: (loopRun events).1
        ++ [MAct.capRelease, MAct.destroyWindows, MAct.stopStream])
    else none
  else
    some [MAct.startStream, MAct.stopStream]

/-- detector.py `main` loop body: no save hotkey, otherwise the same shape. -/
def detectorLoopRun : List LEvent → Bool
  | [] => false
  | LEvent.readFail :: rest => detectorLoopRun rest
  | LEvent.err :: _ => true
  | LEvent.key k :: rest => if k = 113 then true else detectorLoopRun rest

/-- detector.py `main`: start, open capture, loop under try/finally. -/
def detectorRun (capOpens : Bool) (events : List LEvent) : Option (List MAct) :=
  if capOpens then
    if detectorLoopRun events then
      some [MAct.startStream, MAct.capRelease, MAct.destroyWindows, MAct.stopStream]
    else none
  else
    some [MAct.startStream, MAct.stopStream]

/-- C9: On every exit path of the orchestration loop — explicit quit signal,
capture failing to open, or an unhandled error — the supervisor's stop is
invoked before process exit: every terminated run's trace contains
`stopStream`, in both ocr_reader.py and detector.py. -/
theorem C9_stop_on_every_exit (capOpens : Bool) (events : List LEvent)
    (trace : List MAct) :
    (mainRun capOpens events = some trace → MAct.stopStream ∈ trace) ∧
    (detectorRun capOpens events = some trace → MAct.stopStream ∈ trace) := by
  constructor
  · intro h
    unfold mainRun at h
    by_cases hc : capOpens = true
    · rw [if_pos hc] at h
      by_cases hx : (loopRun events).2 = true
      · rw [if_pos hx] at h
        injection h with h
        rw [← h]
        refine List.mem_cons_of_mem _ (List.mem_append.mpr (Or.inr ?_))
        decide
      · simp only [Bool.not_eq_true] at hx
        rw [hx] at h
        simp only [Bool.false_eq_true, if_false] at h
        cases h
    · simp only [Bool.not_eq_true] at hc
      rw [hc] at h
      simp only [Bool.false_eq_true, if_false] at h
      injection h with h
      rw [← h]
      decide
  · intro h
    unfold detectorRun at h
    by_cases hc : capOpens = true
    · rw [if_pos hc] at h
      by_cases hx : detectorLoopRun events = true
      · rw [if_pos hx] at h
        injection h with h
        rw [← h]
        decide
      · simp only [Bool.not_eq_true] at hx
        rw [hx] at h
        simp only [Bool.false_eq_true, if_false] at h
        cases h
    · simp only [Bool.not_eq_true] at hc
      rw [hc] at h
      simp only [Bool.false_eq_true, if_false] at h
      injection h with h
      rw [← h]
      decide

/-- Witness for C9: a run that saves a frame and then quits via the 'q' key
terminates with `stopStream` in its trace. -/
theorem C9_witness :
    MAct.stopStream ∈
      [MAct.startStream, MAct.saveFrame, MAct.capRelease, MAct.destroyWindows,
       MAct.stopStream] :=
  (C9_stop_on_every_exit true [LEvent.readFail, LEvent.key 115, LEvent.key 113]
      [MAct.startStream, MAct.saveFrame, MAct.capRelease, MAct.destroyWindows,
       MAct.stopStream]).1 (by decide)
